import Mathlib

/-!
Shallow embedding of `src/app/src/models/s3_data_access.py` (class `S3DataAccess`)
from the repository `adityac7/text-to-sql-aws`.

Python strings are modelled as `List Char`; the Python string operations used by
the source (`str.strip`, `str.lower`, `str.split`, `str.replace`, `str.startswith`,
`str.endswith`, the `in` substring test) are implemented below with the same
semantics (ASCII case folding, non-overlapping left-to-right split/replace).
pandas DataFrames are modelled as `Frame`: an ordered list of column names plus
an ordered list of rows; missing cells read as null, mirroring NaN.
-/

deriving instance DecidableEq for Except

namespace S3Sql

/-- Cell values of a table: integers, strings, or null (pandas NaN). -/
inductive Value where
  | intV (n : Int)
  | strV (s : List Char)
  | nullV
deriving DecidableEq

/-- Python `str.isspace` characters relevant to `str.strip()`. -/
def pyIsSpace (c : Char) : Bool :=
  c == ' ' || c == '\t' || c == '\n' || c == '\r' || c == '\x0b' || c == '\x0c'

/-- Python `str.strip()`: drop whitespace from both ends. -/
def stripL (s : List Char) : List Char :=
  ((s.dropWhile pyIsSpace).reverse.dropWhile pyIsSpace).reverse

/-- ASCII uppercase test (`'A'..'Z'`). -/
def isUpperC (c : Char) : Bool :=
  decide (65 ≤ c.toNat) && decide (c.toNat ≤ 90)

/-- ASCII lowercasing of one character, as Python `str.lower` acts on ASCII. -/
def lowerC (c : Char) : Char :=
  if isUpperC c then Char.ofNat (c.toNat + 32) else c

/-- Python `str.lower()` (ASCII fragment). -/
def toLowerL (s : List Char) : List Char := s.map lowerC

/-- Python `str.startswith`: is the first list a prefix of the second? -/
def isPrefixL : List Char → List Char → Bool
  | [], _ => true
  | _ :: _, [] => false
  | p :: ps, c :: cs => p == c && isPrefixL ps cs

/-- Python `sub in s` substring test, for the nonempty pattern `c0 :: sep`. -/
def containsL (c0 : Char) (sep : List Char) : List Char → Bool
  | [] => false
  | c :: rest => isPrefixL (c0 :: sep) (c :: rest) || containsL c0 sep rest

/-- Python `s.endswith(suffix)`. -/
def endsWithL (sfx s : List Char) : Bool :=
  isPrefixL sfx.reverse s.reverse

/-- Worker for `splitOnL`, structural on the string: a positive `skip` means
that many characters of an already-matched separator remain to be consumed
silently. -/
def splitSkip (c0 : Char) (sep : List Char) : List Char → Nat → List (List Char)
  | [], _ => [[]]
  | _ :: rest, n + 1 => splitSkip c0 sep rest n
  | c :: rest, 0 =>
    if isPrefixL (c0 :: sep) (c :: rest) then
      [] :: splitSkip c0 sep rest sep.length
    else
      match splitSkip c0 sep rest 0 with
      | [] => [[c]]
      | chunk :: chunks => (c :: chunk) :: chunks

/-- Python `s.split(pat)` for the nonempty separator `c0 :: sep`:
non-overlapping, left to right. -/
def splitOnL (c0 : Char) (sep : List Char) (s : List Char) : List (List Char) :=
  splitSkip c0 sep s 0

/-- Worker for `replaceL`, structural on the string, with the same skip
convention as `splitSkip`. -/
def replaceSkip (c0 : Char) (sep : List Char) : List Char → Nat → List Char
  | [], _ => []
  | _ :: rest, n + 1 => replaceSkip c0 sep rest n
  | c :: rest, 0 =>
    if isPrefixL (c0 :: sep) (c :: rest) then
      replaceSkip c0 sep rest sep.length
    else
      c :: replaceSkip c0 sep rest 0

/-- Python `s.replace(pat, '')` for the nonempty pattern `c0 :: sep`:
delete every non-overlapping occurrence, left to right. -/
def replaceL (c0 : Char) (sep : List Char) (s : List Char) : List Char :=
  replaceSkip c0 sep s 0

/-- The characters strictly before the first occurrence of the pattern
`c0 :: sep` (the whole string when there is no occurrence). Independent
characterisation used to state properties of `splitOnL`. -/
def beforeFirst (c0 : Char) (sep : List Char) : List Char → List Char
  | [] => []
  | c :: rest =>
    if isPrefixL (c0 :: sep) (c :: rest) then []
    else c :: beforeFirst c0 sep rest

/-- The characters strictly after the first occurrence of the pattern
`c0 :: sep`, or `none` when the pattern does not occur. -/
def afterFirst (c0 : Char) (sep : List Char) : List Char → Option (List Char)
  | [] => none
  | c :: rest =>
    if isPrefixL (c0 :: sep) (c :: rest) then some (rest.drop sep.length)
    else afterFirst c0 sep rest

/-- A pandas DataFrame: ordered column names and ordered rows of cells.
Row `i`, column `j` is `rows[i][j]`, aligned with `cols[j]`. -/
structure Frame where
  cols : List (List Char)
  rows : List (List Value)
deriving DecidableEq

/-- The empty DataFrame `pd.DataFrame()`. -/
def emptyFrame : Frame := ⟨[], []⟩

/-- pandas `df.empty`: true when either axis has length zero. -/
def Frame.isEmptyF (f : Frame) : Bool := f.rows.isEmpty || f.cols.isEmpty

/-- The cell of row `r` at column `c` of frame `f`; null when the column is
absent or the row is short (pandas reads such cells as NaN). -/
def getCell (f : Frame) (r : List Value) (c : List Char) : Value :=
  match f.cols.findIdx? (fun d => d == c) with
  | some i => r.getD i Value.nullV
  | none => Value.nullV

/-- Column order of `pd.concat(frames)`: union of the frames' columns in
order of first appearance (pandas default `sort=False`). -/
def unionCols (frames : List Frame) : List (List Char) :=
  frames.foldl (fun acc f => acc ++ f.cols.filter (fun c => !(acc.contains c))) []

/-- Re-expresses one row of frame `f` over a target column list; columns the
frame lacks are filled with null. -/
def reindexRow (f : Frame) (cols : List (List Char)) (r : List Value) : List Value :=
  cols.map (fun c => getCell f r c)

/-- `pd.concat(all_data, ignore_index=True)` (source line 126): columns are the
schema union, rows follow the frame order then in-frame order, absent columns
read as null. -/
def pdConcat (frames : List Frame) : Frame :=
  let cols := unionCols frames
  ⟨cols, frames.flatMap (fun f => f.rows.map (reindexRow f cols))⟩

/-- Test for the null cell value. -/
def isNullV : Value → Bool
  | .nullV => true
  | _ => false

/-- The values of column `c` of frame `f`, in row order (pandas `df[c]`). -/
def colVals (f : Frame) (c : List Char) : List Value :=
  f.rows.map (fun r => getCell f r c)

/-- Result of `get_schema_from_data`: either the sentinel text
"No data available to generate schema." or one entry per column. The source
renders entries as text lines "- col (dtype): Example value: v"; the embedding
keeps the (column, example value) content of each line. -/
inductive SchemaDesc where
  | noData
  | schema (entries : List (List Char × Value))
deriving DecidableEq

/-- Per-column schema entries (source lines 148-151): the example value is
`df[column].iloc[0]` when the column is not entirely null, else the literal
string "NULL". -/
def schemaEntries (f : Frame) : List (List Char × Value) :=
  f.cols.map (fun c =>
    (c, if !((colVals f c).all isNullV) then (colVals f c).headD Value.nullV
        else Value.strV ("NULL".data)))

/-- `get_schema_from_data` (source lines 132-153). -/
def get_schema_from_data (f : Frame) : SchemaDesc :=
  if f.isEmptyF then .noData else .schema (schemaEntries f)

/-- `get_sample_data` (source lines 155-170): the first `rows` rows, or the
sentinel on an empty frame (modelled as `none`). -/
def get_sample_data (f : Frame) (rows : Nat) : Option Frame :=
  if f.isEmptyF then none else some ⟨f.cols, f.rows.take rows⟩

/-- Errors of `execute_query`. The source returns `(pd.DataFrame(), message)`
pairs; the message is "Query must start with SELECT" for `notASelect`, and
"Error executing query: {e}" wrapping the pandas exception otherwise — a
`KeyError` naming the missing columns for `unknownColumns` (raised by
`df[columns]`), or the `df.query` failure for `filterError`. -/
inductive QueryError where
  | notASelect
  | unknownColumns (names : List (List Char))
  | filterError
deriving DecidableEq

/-- The requested columns that are absent from the frame, in request order;
these are the names a pandas `KeyError` from `df[columns]` reports. -/
def missingCols (f : Frame) (cols : List (List Char)) : List (List Char) :=
  cols.filter (fun c => !(f.cols.contains c))

/-- pandas `df[columns]`: project to exactly the named columns in the given
order, or raise a `KeyError` naming the absent ones. -/
def project (f : Frame) (cols : List (List Char)) : Except QueryError Frame :=
  if missingCols f cols = [] then
    .ok ⟨cols, f.rows.map (fun r => cols.map (fun c => getCell f r c))⟩
  else .error (.unknownColumns (missingCols f cols))

/-- The parsed form of a statement: `columns = none` is the wildcard `*`,
otherwise the comma-split trimmed column names; `filter` is the raw clause
string handed to `df.query`, or `none` when absent. -/
structure SQuery where
  columns : Option (List (List Char))
  filter : Option (List Char)
deriving DecidableEq

/-- The parse stage of `execute_query` (source lines 188-202 and 211-215):
trim; require the lowercased statement to start with "select"; if the
lowercased statement contains the substring "where", split on it, taking
part 0 as the column clause and part 1 as the filter; delete every "select"
from the column clause, trim, and read `*` as the wildcard or split on
commas and trim each name. -/
def parseQuery (query : List Char) : Except QueryError SQuery :=
  let q := stripL query
  if !(isPrefixL ("select".data) (toLowerL q)) then .error .notASelect
  else if containsL 'w' ("here".data) (toLowerL q) then
    let parts := splitOnL 'w' ("here".data) (toLowerL q)
    let columnsStr := stripL (replaceL 's' ("elect".data) (parts.getD 0 []))
    let cols := if columnsStr = ['*'] then none
                else some ((splitOnL ',' [] columnsStr).map stripL)
    .ok ⟨cols, some (parts.getD 1 [])⟩
  else
    let columnsStr := stripL (replaceL 's' ("elect".data) (toLowerL q))
    let cols := if columnsStr = ['*'] then none
                else some ((splitOnL ',' [] columnsStr).map stripL)
    .ok ⟨cols, none⟩

/-- The execution stage on a parsed query: wildcard keeps the frame
(`df.copy()`), a column list projects via `df[columns]`, then the filter, if
any, is evaluated by `result.query(where_part)` — modelled by the abstract
evaluator `evalFilter`, whose failure the source maps to the generic
error string. -/
def execParsed (evalFilter : Frame → List Char → Except Unit Frame)
    (df : Frame) (pq : SQuery) : Except QueryError Frame :=
  let res := match pq.columns with
    | none => Except.ok df
    | some cols => project df cols
  match pq.filter with
  | none => res
  | some w =>
    match res with
    | .error e => .error e
    | .ok r =>
      match evalFilter r w with
      | .error _ => .error .filterError
      | .ok r' => .ok r'

/-- `execute_query` (source lines 172-221), written exactly as the source
interleaves parsing and evaluation; `evalFilter` stands for pandas
`DataFrame.query`, which the source delegates filter evaluation to. -/
def execute_query (evalFilter : Frame → List Char → Except Unit Frame)
    (df : Frame) (query : List Char) : Except QueryError Frame :=
  let q := stripL query
  if !(isPrefixL ("select".data) (toLowerL q)) then .error .notASelect
  else if containsL 'w' ("here".data) (toLowerL q) then
    let parts := splitOnL 'w' ("here".data) (toLowerL q)
    let selectPart := parts.getD 0 []
    let wherePart := parts.getD 1 []
    let columnsStr := stripL (replaceL 's' ("elect".data) selectPart)
    let res := if columnsStr = ['*'] then Except.ok df
               else project df ((splitOnL ',' [] columnsStr).map stripL)
    match res with
    | .error e => .error e
    | .ok r =>
      match evalFilter r wherePart with
      | .error _ => .error .filterError
      | .ok r' => .ok r'
  else
    let columnsStr := stripL (replaceL 's' ("elect".data) (toLowerL q))
    if columnsStr = ['*'] then .ok df
    else project df ((splitOnL ',' [] columnsStr).map stripL)

/-- Python `int(s)`: optional surrounding whitespace, optional sign, at least
one digit (the underscore grouping extension is not modelled). -/
def pyInt (s : List Char) : Option Int :=
  let t := stripL s
  match t with
  | '-' :: ds => (pyNat ds).map (fun n => -(n : Int))
  | '+' :: ds => (pyNat ds).map (fun n => (n : Int))
  | ds => (pyNat ds).map (fun n => (n : Int))
where
  pyNat (ds : List Char) : Option Nat :=
    if ds.isEmpty || !(ds.all Char.isDigit) then none
    else some (ds.foldl (fun acc c => acc * 10 + (c.toNat - 48)) 0)

/-- Gregorian leap-year rule used by `datetime.date`. -/
def isLeap (y : Int) : Bool :=
  (y % 4 == 0 && y % 100 != 0) || y % 400 == 0

/-- Days in a month, as `datetime(year, month, day)` validates them. -/
def daysInMonth (y m : Int) : Int :=
  if m == 2 then (if isLeap y then 29 else 28)
  else if m == 4 || m == 6 || m == 9 || m == 11 then 30
  else 31

/-- The `(year, month, day)` triples `datetime` accepts. -/
def validYMD (y m d : Int) : Bool :=
  1 ≤ y && y ≤ 9999 && 1 ≤ m && m ≤ 12 && 1 ≤ d && d ≤ daysInMonth y m

/-- A calendar date as `datetime(year, month, day)` stores it. -/
structure YMD where
  year : Int
  month : Int
  day : Int
deriving DecidableEq

/-- Comparison key giving `datetime`'s calendar order on valid dates. -/
def YMD.key (d : YMD) : Int := d.year * 10000 + d.month * 100 + d.day

/-- `min` of two dates in calendar order. -/
def minYMD (a b : YMD) : YMD := if a.key ≤ b.key then a else b

/-- `max` of two dates in calendar order. -/
def maxYMD (a b : YMD) : YMD := if a.key ≤ b.key then b else a

/-- Key parsing inside `get_available_date_range` (source lines 40-53): split
the key on '/', require at least 4 parts, read parts 1-3 as `name=value`
taking the text after the first '=', parse each as an int, and build a
`datetime`; any `IndexError`/`ValueError` (including an invalid calendar
date) skips the key. -/
def parseKeyDate (key : List Char) : Option YMD :=
  let parts := splitOnL '/' [] key
  if parts.length ≥ 4 then
    match (splitOnL '=' [] (parts.getD 1 [])).get? 1,
          (splitOnL '=' [] (parts.getD 2 [])).get? 1,
          (splitOnL '=' [] (parts.getD 3 [])).get? 1 with
    | some ys, some ms, some ds =>
      match pyInt ys, pyInt ms, pyInt ds with
      | some y, some m, some d =>
        if validYMD y m d then some ⟨y, m, d⟩ else none
      | _, _, _ => none
    | _, _, _ => none
  else none

/-- `get_available_date_range` (source lines 23-62). The argument is the
outcome of `list_objects_v2` over the base prefix: `Except.error` models a
raised storage exception (caught at line 60, returning `(None, None)`),
`Except.ok keys` the listed object keys (an empty listing has no 'Contents'
and also yields `(None, None)`). The `(None, None)` return is modelled as
`none`; `(min(dates), max(dates))` as `some (lo, hi)`. -/
def get_available_date_range (listing : Except Unit (List (List Char))) :
    Option (YMD × YMD) :=
  match listing with
  | .error _ => none
  | .ok keys =>
    if keys.isEmpty then none
    else
      match keys.filterMap parseKeyDate with
      | [] => none
      | d :: ds => some (ds.foldl minYMD d, ds.foldl maxYMD d)

/-- Fuel-indexed worker for `dateList`; the fuel bounds the iteration count of
the `while current_date <= end_date` loop and is chosen exactly. -/
def dateListGo : Nat → Int → Int → List Int
  | 0, _, _ => []
  | n + 1, cur, e => if cur ≤ e then cur :: dateListGo n (cur + 1) e else []

/-- The date enumeration of `get_data_for_date_range` (source lines 77-82):
start at `start_date` and step one day while `current_date <= end_date`.
Time points are modelled as integer day numbers, one unit per
`timedelta(days=1)`. -/
def dateList (s e : Int) : List Int :=
  dateListGo (e + 1 - s).toNat s e

/-- The object store as `get_data_for_date_range` consumes it:
`listForDate d` is `list_objects_v2` under the partition prefix
`base_path/year=Y/month=MM/day=DD/` built from date `d` (source line 94), and
`getParse k` is the fetch of key `k` followed by gzip decompression and CSV
parsing (source lines 107-112). `Except.error` models a raised exception. -/
structure S3 where
  listForDate : Int → Except Unit (List (List Char))
  getParse : List Char → Except Unit Frame

/-- Python truthiness test `if limit and file_count >= limit` (source lines
116 and 119): `None` and `0` are falsy. -/
def limitHit (limit : Option Nat) (count : Nat) : Bool :=
  match limit with
  | none => false
  | some l => decide (0 < l) && decide (l ≤ count)

/-- The inner `for obj in response.get('Contents', [])` loop (source lines
103-117): keys not ending in ".csv.gz" are skipped; each remaining key is
fetched, decompressed and parsed — a raised exception propagates out of the
loop — and its frame appended; reaching the file limit breaks the loop. -/
def processKeys (s3 : S3) (limit : Option Nat) :
    List (List Char) → List Frame → Nat → Except Unit (List Frame × Nat)
  | [], acc, count => .ok (acc, count)
  | k :: rest, acc, count =>
    if endsWithL (".csv.gz".data) k then
      match s3.getParse k with
      | .error e => .error e
      | .ok df =>
        if limitHit limit (count + 1) then .ok (acc ++ [df], count + 1)
        else processKeys s3 limit rest (acc ++ [df]) (count + 1)
    else processKeys s3 limit rest acc count

/-- The outer `for date in date_list` loop (source lines 88-120): list the
date's partition, process its keys, and stop early when the file limit is
reached; a raised exception propagates. -/
def processDates (s3 : S3) (limit : Option Nat) :
    List Int → List Frame → Nat → Except Unit (List Frame)
  | [], acc, _ => .ok acc
  | d :: ds, acc, count =>
    match s3.listForDate d with
    | .error e => .error e
    | .ok keys =>
      match processKeys s3 limit keys acc count with
      | .error e => .error e
      | .ok (acc', count') =>
        if limitHit limit count' then .ok acc'
        else processDates s3 limit ds acc' count'

/-- `get_data_for_date_range` (source lines 64-130): enumerate the dates,
run the two loops, and concatenate; the `try`/`except` wrapping the whole
body (lines 76 and 128-130) turns ANY raised exception into a bare
`pd.DataFrame()`, and an empty accumulator also yields `pd.DataFrame()`. -/
def get_data_for_date_range (s3 : S3) (startDate endDate : Int)
    (limit : Option Nat) : Frame :=
  match processDates s3 limit (dateList startDate endDate) [] 0 with
  | .error _ => emptyFrame
  | .ok allData => if allData.isEmpty then emptyFrame else pdConcat allData

/-! ### General lemmas about the string primitives -/

theorem toNat_ofNat_valid (n : Nat) (h : n < 55296) : (Char.ofNat n).toNat = n := by
  have hv : n.isValidChar := Or.inl h
  simp [Char.ofNat, hv, Char.ofNatAux, Char.toNat, UInt32.toNat, BitVec.toNat_ofNatLt]

theorem lowerC_not_upper (c : Char) : isUpperC (lowerC c) = false := by
  unfold lowerC
  by_cases h : isUpperC c = true
  · simp only [h, if_true]
    have hb : 65 ≤ c.toNat ∧ c.toNat ≤ 90 := by simpa [isUpperC] using h
    have hr : (Char.ofNat (c.toNat + 32)).toNat = c.toNat + 32 :=
      toNat_ofNat_valid _ (by omega)
    simp [isUpperC, hr]
    omega
  · simp only [Bool.not_eq_true] at h
    simp [h]

theorem mem_toLowerL_not_upper {s : List Char} {c : Char}
    (h : c ∈ toLowerL s) : isUpperC c = false := by
  obtain ⟨d, _, rfl⟩ := List.mem_map.mp h
  exact lowerC_not_upper d

theorem mem_stripL {s : List Char} {c : Char} (h : c ∈ stripL s) : c ∈ s := by
  have aux : ∀ (t : List Char) (x : Char), x ∈ t.dropWhile pyIsSpace → x ∈ t := by
    intro t
    induction t with
    | nil => intro x hx; exact hx
    | cons a rest ih =>
      intro x hx
      by_cases ha : pyIsSpace a = true
      · simp only [List.dropWhile, ha] at hx
        exact List.mem_cons_of_mem a (ih x hx)
      · simp only [List.dropWhile, ha] at hx
        simpa using hx
  unfold stripL at h
  rw [List.mem_reverse] at h
  have h2 := aux _ _ h
  rw [List.mem_reverse] at h2
  exact aux _ _ h2

theorem splitSkip_eq_drop (c0 : Char) (sep : List Char) :
    ∀ (s : List Char) (n : Nat), splitSkip c0 sep s n = splitSkip c0 sep (s.drop n) 0 := by
  intro s
  induction s with
  | nil => intro n; simp [splitSkip]
  | cons c rest ih =>
    intro n
    cases n with
    | zero => rfl
    | succ m => simpa [splitSkip] using ih m

theorem splitOnL_eq_firsts (c0 : Char) (sep : List Char) (s : List Char) :
    splitOnL c0 sep s =
      beforeFirst c0 sep s ::
        (match afterFirst c0 sep s with
         | none => []
         | some t => splitOnL c0 sep t) := by
  induction s with
  | nil => simp [splitOnL, splitSkip, beforeFirst, afterFirst]
  | cons c rest ih =>
    by_cases hp : isPrefixL (c0 :: sep) (c :: rest) = true
    · simp only [splitOnL, splitSkip, hp, if_true, beforeFirst, afterFirst]
      rw [splitSkip_eq_drop]
    · simp only [splitOnL, splitSkip, hp, if_false, Bool.false_eq_true,
        beforeFirst, afterFirst, ite_false]
      rw [splitOnL] at ih
      rw [ih]
      rfl

theorem beforeFirst_of_none {c0 : Char} {sep s : List Char}
    (h : afterFirst c0 sep s = none) : beforeFirst c0 sep s = s := by
  induction s with
  | nil => rfl
  | cons c rest ih =>
    by_cases hp : isPrefixL (c0 :: sep) (c :: rest) = true
    · simp [afterFirst, hp] at h
    · simp only [afterFirst, hp, Bool.false_eq_true, ite_false] at h
      simp [beforeFirst, hp, ih h]

theorem containsL_iff_afterFirst {c0 : Char} {sep : List Char} :
    ∀ {s : List Char}, containsL c0 sep s = true ↔ (afterFirst c0 sep s).isSome = true := by
  intro s
  induction s with
  | nil => simp [containsL, afterFirst]
  | cons c rest ih =>
    by_cases hp : isPrefixL (c0 :: sep) (c :: rest) = true
    · simp [containsL, afterFirst, hp]
    · simp [containsL, afterFirst, hp, ih]

theorem mem_splitSkip {c0 : Char} {sep : List Char} :
    ∀ {s : List Char} {n : Nat} {chunk : List Char} {x : Char},
      chunk ∈ splitSkip c0 sep s n → x ∈ chunk → x ∈ s := by
  intro s
  induction s with
  | nil =>
    intro n chunk x hc hx
    simp [splitSkip] at hc
    subst hc
    simp at hx
  | cons c rest ih =>
    intro n chunk x hc hx
    cases n with
    | succ m =>
      simp only [splitSkip] at hc
      exact List.mem_cons_of_mem c (ih hc hx)
    | zero =>
      by_cases hp : isPrefixL (c0 :: sep) (c :: rest) = true
      · simp only [splitSkip, hp, if_true, List.mem_cons] at hc
        rcases hc with rfl | hc
        · simp at hx
        · exact List.mem_cons_of_mem c (ih hc hx)
      · simp only [splitSkip, hp, Bool.false_eq_true, ite_false] at hc
        rcases hsp : splitSkip c0 sep rest 0 with _ | ⟨ch, chunks⟩
        · rw [hsp] at hc
          simp at hc
          subst hc
          simp at hx
          simp [hx]
        · rw [hsp] at hc
          simp only [List.mem_cons] at hc
          rcases hc with rfl | hc
          · simp only [List.mem_cons] at hx
            rcases hx with rfl | hx
            · simp
            · have : ch ∈ splitSkip c0 sep rest 0 := by rw [hsp]; simp
              exact List.mem_cons_of_mem c (ih this hx)
          · have : chunk ∈ splitSkip c0 sep rest 0 := by rw [hsp]; simp [hc]
            exact List.mem_cons_of_mem c (ih this hx)

theorem mem_splitOnL {c0 : Char} {sep s chunk : List Char} {x : Char}
    (hc : chunk ∈ splitOnL c0 sep s) (hx : x ∈ chunk) : x ∈ s :=
  mem_splitSkip hc hx

theorem mem_replaceSkip {c0 : Char} {sep : List Char} :
    ∀ {s : List Char} {n : Nat} {x : Char}, x ∈ replaceSkip c0 sep s n → x ∈ s := by
  intro s
  induction s with
  | nil => intro n x hx; simp [replaceSkip] at hx
  | cons c rest ih =>
    intro n x hx
    cases n with
    | succ m =>
      simp only [replaceSkip] at hx
      exact List.mem_cons_of_mem c (ih hx)
    | zero =>
      by_cases hp : isPrefixL (c0 :: sep) (c :: rest) = true
      · simp only [replaceSkip, hp, if_true] at hx
        exact List.mem_cons_of_mem c (ih hx)
      · simp only [replaceSkip, hp, Bool.false_eq_true, ite_false, List.mem_cons] at hx
        rcases hx with rfl | hx
        · simp
        · exact List.mem_cons_of_mem c (ih hx)

theorem mem_replaceL {c0 : Char} {sep s : List Char} {x : Char}
    (hx : x ∈ replaceL c0 sep s) : x ∈ s :=
  mem_replaceSkip hx

theorem getD_mem_or {α : Type} : ∀ (l : List α) (i : Nat) (d : α),
    l.getD i d ∈ l ∨ l.getD i d = d := by
  intro l
  induction l with
  | nil => intro i d; right; cases i <;> rfl
  | cons x xs ih =>
    intro i d
    cases i with
    | zero => left; simp [List.getD]
    | succ j =>
      rcases ih j d with h | h
      · left
        simpa [List.getD] using Or.inr (by simpa [List.getD] using h)
      · right
        simpa [List.getD] using h

/-! ### Normal forms of the parse stage -/

/-- The lowercased trimmed statement that all of `execute_query`'s string
work is performed on. -/
def lowQ (q : List Char) : List Char := toLowerL (stripL q)

/-- The column clause text: part 0 of the "where" split (the whole lowered
statement when "where" does not occur) with every "select" deleted, trimmed. -/
def columnsStrOf (q : List Char) : List Char :=
  stripL (replaceL 's' ("elect".data)
    ((splitOnL 'w' ("here".data) (lowQ q)).getD 0 []))

/-- The columns the parse stage produces. -/
def colsOfQ (q : List Char) : Option (List (List Char)) :=
  if columnsStrOf q = ['*'] then none
  else some ((splitOnL ',' [] (columnsStrOf q)).map stripL)

/-- The filter the parse stage produces: part 1 of the "where" split. -/
def filterOfQ (q : List Char) : Option (List Char) :=
  if containsL 'w' ("here".data) (lowQ q) = true then
    some ((splitOnL 'w' ("here".data) (lowQ q)).getD 1 [])
  else none

theorem splitOnL_of_not_contains {c0 : Char} {sep s : List Char}
    (h : containsL c0 sep s = false) : splitOnL c0 sep s = [s] := by
  have haf : afterFirst c0 sep s = none := by
    rcases haf : afterFirst c0 sep s with _ | t
    · rfl
    · have hc : containsL c0 sep s = true :=
        containsL_iff_afterFirst.mpr (by simp [haf])
      rw [hc] at h
      exact absurd h (by simp)
  rw [splitOnL_eq_firsts, haf, beforeFirst_of_none haf]

theorem parseQuery_eq (q : List Char) :
    parseQuery q =
      if isPrefixL ("select".data) (lowQ q) = true then
        .ok ⟨colsOfQ q, filterOfQ q⟩
      else .error .notASelect := by
  unfold parseQuery lowQ colsOfQ filterOfQ columnsStrOf lowQ
  by_cases hA : isPrefixL ("select".data) (toLowerL (stripL q)) = true
  · by_cases hB : containsL 'w' ("here".data) (toLowerL (stripL q)) = true
    · simp [hA, hB]
    · have hs := @splitOnL_of_not_contains 'w' ("here".data) (toLowerL (stripL q))
        (by simpa using hB)
      simp [hA, hB, hs, List.getD]
  · simp [hA]

theorem execute_query_eq (evalFilter : Frame → List Char → Except Unit Frame)
    (df : Frame) (q : List Char) :
    execute_query evalFilter df q =
      match parseQuery q with
      | .error e => .error e
      | .ok pq => execParsed evalFilter df pq := by
  unfold execute_query parseQuery execParsed
  dsimp only
  split_ifs <;> rfl

theorem dateListGo_eq : ∀ (n : Nat) (s e : Int), (e + 1 - s).toNat = n →
    dateListGo n s e = (List.range n).map (fun (i : Nat) => s + (i : Int)) := by
  intro n
  induction n with
  | zero => intro s e _; rfl
  | succ m ih =>
    intro s e h
    have hse : s ≤ e := by omega
    rw [dateListGo, if_pos hse, ih (s + 1) e (by omega), List.range_succ_eq_map,
      List.map_cons, List.map_map]
    congr 1
    · simp
    · apply List.map_congr_left
      intro i _
      simp only [Function.comp_apply]
      push_cast
      ring

/-! ### Shared concrete fixtures for witnesses and counterexamples -/

/-- A trivial stand-in for pandas `DataFrame.query`: keeps every row. -/
def keepAllRows : Frame → List Char → Except Unit Frame := fun f _ => .ok f

/-- A two-column one-row table. -/
def fAB : Frame := ⟨["a".data, "b".data], [[Value.intV 1, Value.intV 2]]⟩

/-- A one-column one-row table. -/
def demoFrame : Frame := ⟨["x".data], [[Value.intV 1]]⟩

/-- A store with one partition listing holding two compressed files: the
first parses to the given frame, the second raises on fetch/parse. -/
def s3TwoFiles (f : Frame) : S3 :=
  ⟨fun _ => .ok [("part/a.csv.gz".data), ("part/b.csv.gz".data)],
   fun k => if k = ("part/a.csv.gz".data) then .ok f else .error ()⟩

/-! ### Claims -/

/-- Claim C1 counterexample: with two files in range, where the first parses
to `demoFrame` and the second fails, `get_data_for_date_range` returns the
empty frame — the surviving frame is NOT concatenated and returned, contrary
to the claim, which expects `pdConcat [demoFrame]`. -/
theorem claim_C1_cex :
    get_data_for_date_range (s3TwoFiles demoFrame) 0 0 none = emptyFrame ∧
    pdConcat [demoFrame] ≠ emptyFrame := by decide

/-- Claim C1, amended: a fetch/decompress/parse failure of any single file is
caught only by the `try`/`except` around the whole of
`get_data_for_date_range`, so it aborts the entire load and returns the
empty frame, discarding the frames accumulated from other files (shown for
an arbitrary surviving frame `f`). -/
theorem claim_C1_amended :
    (∀ (s3 : S3) (s e : Int) (limit : Option Nat) (err : Unit),
      processDates s3 limit (dateList s e) [] 0 = .error err →
      get_data_for_date_range s3 s e limit = emptyFrame) ∧
    (∀ f : Frame, get_data_for_date_range (s3TwoFiles f) 0 0 none = emptyFrame) := by
  constructor
  · intro s3 s e limit err h
    unfold get_data_for_date_range
    rw [h]
  · intro f
    rfl

theorem claim_C1_witness :
    processDates (s3TwoFiles demoFrame) none (dateList 0 0) [] 0 = .error () ∧
    get_data_for_date_range (s3TwoFiles demoFrame) 0 0 none = emptyFrame :=
  ⟨by decide, claim_C1_amended.1 (s3TwoFiles demoFrame) 0 0 none () (by decide)⟩

/-- Claim C2 counterexample: a storage-access failure (a raised exception
from `list_objects_v2`) and an empty listing both return `(None, None)` from
`get_available_date_range` — the caller cannot distinguish them, contrary to
the claim of a distinguishable `InfrastructureError`. -/
theorem claim_C2_cex :
    get_available_date_range (.error ()) = none ∧
    get_available_date_range (.ok []) = none := by decide

/-- Claim C2, amended: a storage-access failure is caught, logged, and
reported as the very same `(None, None)` "no data" result that an empty
listing or an unparseable listing produces; no distinguishable error
reaches the caller. -/
theorem claim_C2_amended :
    (∀ err : Unit, get_available_date_range (.error err) = none) ∧
    (∀ keys : List (List Char), keys.filterMap parseKeyDate = [] →
      get_available_date_range (.ok keys) = none) := by
  constructor
  · intro err
    rfl
  · intro keys h
    unfold get_available_date_range
    by_cases hk : keys.isEmpty = true
    · simp [hk]
    · simp only [hk, Bool.false_eq_true, if_false, h]

theorem claim_C2_witness :
    (["junk".data].filterMap parseKeyDate = []) ∧
    get_available_date_range (.ok ["junk".data]) = none :=
  ⟨by decide, claim_C2_amended.2 ["junk".data] (by decide)⟩

/-- Claim C7: for every date range `[s, e]` with `s ≤ e`, the ingestion loop
enumerates exactly `(e - s).days + 1` dates, in ascending order; the
enumeration is precisely `s, s+1, ..., e`. -/
theorem claim_C7 (s e : Int) (h : s ≤ e) :
    (dateList s e).length = (e - s).toNat + 1 ∧
    List.Chain' (· < ·) (dateList s e) ∧
    dateList s e = (List.range ((e - s).toNat + 1)).map (fun (i : Nat) => s + (i : Int)) ∧
    (dateList s e).head? = some s ∧
    (dateList s e).getLast? = some e := by
  have hrep : dateList s e =
      (List.range ((e - s).toNat + 1)).map (fun (i : Nat) => s + (i : Int)) := by
    have hn : (e + 1 - s).toNat = (e - s).toNat + 1 := by omega
    rw [dateList, hn]
    exact dateListGo_eq _ s e hn
  refine ⟨?_, ?_, hrep, ?_, ?_⟩
  · rw [hrep]; simp
  · rw [hrep]
    refine List.Pairwise.chain' ?_
    refine List.Pairwise.map _ ?_ (List.pairwise_lt_range _)
    intro a b hab
    omega
  · rw [hrep, List.range_succ_eq_map]
    simp
  · rw [hrep, List.range_succ, List.map_append]
    simp only [List.map_cons, List.map_nil]
    rw [List.getLast?_concat]
    simp only [Option.some.injEq]
    omega

theorem claim_C7_witness :
    (0 : Int) ≤ 2 ∧
    ((dateList 0 2).length = ((2 : Int) - 0).toNat + 1 ∧
     List.Chain' (· < ·) (dateList 0 2) ∧
     dateList 0 2 = (List.range (((2 : Int) - 0).toNat + 1)).map (fun (i : Nat) => 0 + (i : Int)) ∧
     (dateList 0 2).head? = some 0 ∧
     (dateList 0 2).getLast? = some 2) :=
  ⟨by decide, claim_C7 0 2 (by decide)⟩

/-- Claim C8: every statement whose trimmed form does not begin with
"select" (case-insensitively) fails with the not-a-SELECT error and no
result table is produced, in both the parse view and `execute_query`. -/
theorem claim_C8 (evalFilter : Frame → List Char → Except Unit Frame)
    (f : Frame) (q : List Char)
    (h : isPrefixL ("select".data) (toLowerL (stripL q)) = false) :
    execute_query evalFilter f q = .error .notASelect ∧
    parseQuery q = .error .notASelect := by
  have hp : parseQuery q = .error .notASelect := by
    rw [parseQuery_eq]
    simp [lowQ, h]
  refine ⟨?_, hp⟩
  rw [execute_query_eq, hp]

theorem claim_C8_witness :
    isPrefixL ("select".data) (toLowerL (stripL ("DROP TABLE x".data))) = false ∧
    (execute_query keepAllRows fAB ("DROP TABLE x".data) = .error .notASelect ∧
     parseQuery ("DROP TABLE x".data) = .error .notASelect) :=
  ⟨by decide, claim_C8 keepAllRows fAB _ (by decide)⟩

/-- Claim C9: a wildcard query with no filter returns the input table
unchanged in row and column order (the source's `df.copy()`; the embedding
is pure, so the input is never mutated and the result equals the input). -/
theorem claim_C9 (evalFilter : Frame → List Char → Except Unit Frame)
    (f : Frame) (q : List Char) (h : parseQuery q = .ok ⟨none, none⟩) :
    execute_query evalFilter f q = .ok f := by
  rw [execute_query_eq, h]
  rfl

theorem claim_C9_witness :
    parseQuery ("SELECT *".data) = .ok ⟨none, none⟩ ∧
    execute_query keepAllRows fAB ("SELECT *".data) = .ok fAB :=
  ⟨by decide, claim_C9 keepAllRows fAB _ (by decide)⟩

/-- A table whose single column starts with a null and then holds 5. -/
def fNullFirst : Frame := ⟨["a".data], [[Value.nullV], [Value.intV 5]]⟩

/-- Claim C4 counterexample: on a column whose first value is null and whose
second value is 5, `get_schema_from_data` reports the null as the example
value, not the first non-null value 5 — the source reads `iloc[0]`, not the
first non-null entry. -/
theorem claim_C4_cex :
    get_schema_from_data fNullFirst = .schema [("a".data, Value.nullV)] ∧
    Value.nullV ≠ Value.intV 5 := by decide

/-- Claim C4, amended: the example value reported for a column is the first
value of that column (which may itself be null) whenever the column is not
entirely null; an entirely-null column gets the "NULL" marker; an empty
table gets the "no data available" sentinel instead of an empty list. -/
theorem claim_C4_amended :
    (∀ f : Frame, f.isEmptyF = true → get_schema_from_data f = .noData) ∧
    (∀ (f : Frame) (i : Nat) (c : List Char) (v : Value) (rest : List Value),
      f.isEmptyF = false → f.cols.get? i = some c →
      colVals f c = v :: rest → (colVals f c).all isNullV = false →
      get_schema_from_data f = .schema (schemaEntries f) ∧
      (schemaEntries f).get? i = some (c, v)) ∧
    (∀ (f : Frame) (i : Nat) (c : List Char),
      f.isEmptyF = false → f.cols.get? i = some c →
      (colVals f c).all isNullV = true →
      get_schema_from_data f = .schema (schemaEntries f) ∧
      (schemaEntries f).get? i = some (c, Value.strV ("NULL".data))) := by
  refine ⟨?_, ?_, ?_⟩
  · intro f h
    unfold get_schema_from_data
    simp [h]
  · intro f i c v rest hemp hci hcv hall
    constructor
    · unfold get_schema_from_data
      simp [hemp]
    · unfold schemaEntries
      rw [List.get?_map, hci]
      simp only [Option.map_some']
      rw [hall, hcv]
      rfl
  · intro f i c hemp hci hall
    constructor
    · unfold get_schema_from_data
      simp [hemp]
    · unfold schemaEntries
      rw [List.get?_map, hci]
      simp only [Option.map_some']
      rw [hall]
      rfl

theorem claim_C4_witness :
    (fNullFirst.isEmptyF = false ∧ fNullFirst.cols.get? 0 = some ("a".data) ∧
     colVals fNullFirst ("a".data) = [Value.nullV, Value.intV 5] ∧
     (colVals fNullFirst ("a".data)).all isNullV = false) ∧
    (get_schema_from_data fNullFirst = .schema (schemaEntries fNullFirst) ∧
     (schemaEntries fNullFirst).get? 0 = some ("a".data, Value.nullV)) :=
  ⟨⟨by decide, by decide, by decide, by decide⟩,
   claim_C4_amended.2.1 fNullFirst 0 ("a".data) Value.nullV [Value.intV 5]
     (by decide) (by decide) (by decide) (by decide)⟩

/-- Claim C5: for every table and every non-wildcard query, execution
projects the table to exactly the parsed columns in the requested order; a
requested column absent from the table makes execution fail with the
unknown-column error, whose names are exactly the requested-but-absent
columns; when a filter is present the evaluator receives precisely the
projected table. -/
theorem claim_C5 (evalFilter : Frame → List Char → Except Unit Frame)
    (f : Frame) (q : List Char) (cols : List (List Char))
    (filt : Option (List Char))
    (hp : parseQuery q = .ok ⟨some cols, filt⟩) :
    (∀ nm, nm ∈ missingCols f cols ↔ nm ∈ cols ∧ ¬ nm ∈ f.cols) ∧
    (missingCols f cols ≠ [] →
      execute_query evalFilter f q = .error (.unknownColumns (missingCols f cols))) ∧
    (missingCols f cols = [] → filt = none →
      execute_query evalFilter f q =
        .ok ⟨cols, f.rows.map (fun r => cols.map (fun c => getCell f r c))⟩) ∧
    (∀ w, filt = some w → missingCols f cols = [] →
      execute_query evalFilter f q =
        match evalFilter ⟨cols, f.rows.map (fun r => cols.map (fun c => getCell f r c))⟩ w with
        | .error _ => .error .filterError
        | .ok r => .ok r) := by
  refine ⟨?_, ?_, ?_, ?_⟩
  · intro nm
    simp [missingCols, List.mem_filter]
  · intro hm
    rw [execute_query_eq, hp]
    simp only [execParsed, project, if_neg hm]
    cases filt <;> rfl
  · intro hm hf
    subst hf
    rw [execute_query_eq, hp]
    simp only [execParsed, project, if_pos hm]
  · intro w hf hm
    subst hf
    rw [execute_query_eq, hp]
    simp only [execParsed, project, if_pos hm]

theorem claim_C5_witness :
    parseQuery ("select z".data) = .ok ⟨some ["z".data], none⟩ ∧
    missingCols fAB ["z".data] ≠ [] ∧
    execute_query keepAllRows fAB ("select z".data) =
      .error (.unknownColumns ["z".data]) :=
  ⟨by decide, by decide,
   (claim_C5 keepAllRows fAB ("select z".data) ["z".data] none (by decide)).2.1
     (by decide)⟩

/-- Claim C6: concatenating two frames over column sets `{a, b}` and
`{b, c}` yields the schema-union table over `[a, b, c]`: rows from the first
frame carry null in column `c`, rows from the second frame carry null in
column `a`, with row order preserved. -/
theorem claim_C6 (a b c : List Char) (rows1 rows2 : List (List Value))
    (hab : a ≠ b) (hac : a ≠ c) (hbc : b ≠ c) :
    pdConcat [⟨[a, b], rows1⟩, ⟨[b, c], rows2⟩] =
      ⟨[a, b, c],
        rows1.map (fun r => [r.getD 0 Value.nullV, r.getD 1 Value.nullV, Value.nullV]) ++
        rows2.map (fun r => [Value.nullV, r.getD 0 Value.nullV, r.getD 1 Value.nullV])⟩ := by
  have hcols : unionCols [⟨[a, b], rows1⟩, ⟨[b, c], rows2⟩] = [a, b, c] := by
    simp [unionCols, List.contains, hab, hac, hbc, Ne.symm hab, Ne.symm hac, Ne.symm hbc]
  unfold pdConcat
  rw [hcols]
  simp only [List.flatMap_cons, List.flatMap_nil, List.append_nil]
  congr 1
  congr 1
  · apply List.map_congr_left
    intro r _
    simp [reindexRow, getCell, List.findIdx?, hab, hac, hbc, Ne.symm hab, Ne.symm hac, Ne.symm hbc]
  · apply List.map_congr_left
    intro r _
    simp [reindexRow, getCell, List.findIdx?, hab, hac, hbc, Ne.symm hab, Ne.symm hac, Ne.symm hbc]

theorem mem_columnsStrOf {q : List Char} {ch : Char} (h : ch ∈ columnsStrOf q) :
    ch ∈ lowQ q := by
  unfold columnsStrOf at h
  have h1 := mem_stripL h
  have h2 := mem_replaceL h1
  rcases getD_mem_or (splitOnL 'w' ("here".data) (lowQ q)) 0 [] with hm | hnil
  · exact mem_splitOnL hm h2
  · rw [hnil] at h2
    simp at h2

theorem not_upper_of_mem_lowQ {q : List Char} {ch : Char} (h : ch ∈ lowQ q) :
    isUpperC ch = false :=
  mem_toLowerL_not_upper h

/-- Claim C3 counterexample: "select anywhere" contains no `WHERE` keyword,
but the parser splits on the substring "where" occurring inside "anywhere"
and yields columns `["any"]` with an (empty) filter clause — not columns
`["anywhere"]` with no filter, as the claim requires. -/
theorem claim_C3_cex :
    parseQuery ("select anywhere".data) = .ok ⟨some ["any".data], some []⟩ ∧
    SQuery.mk (some ["any".data]) (some []) ≠
      SQuery.mk (some ["anywhere".data]) none := by decide

/-- Claim C3, amended: parsing splits the lowercased trimmed statement at
occurrences of the SUBSTRING "where" (not the keyword): the column clause is
the text before the first occurrence, and the filter clause is the text
strictly between the first and second occurrences (the whole remainder when
"where" occurs exactly once), with surrounding whitespace retained; the
column clause with every occurrence of the substring "select" deleted and
trimmed is either the wildcard `*` or the comma-separated trimmed column
list, order preserved; a statement without the substring "where" has no
filter; `parse("select a, b where a > 5")` yields columns `[a, b]` and
filter `" a > 5"`. -/
theorem claim_C3_amended :
    (∀ q : List Char, isPrefixL ("select".data) (lowQ q) = true →
      afterFirst 'w' ("here".data) (lowQ q) = none →
      parseQuery q = .ok ⟨colsOfQ q, none⟩) ∧
    (∀ q t : List Char, isPrefixL ("select".data) (lowQ q) = true →
      afterFirst 'w' ("here".data) (lowQ q) = some t →
      parseQuery q = .ok ⟨colsOfQ q, some (beforeFirst 'w' ("here".data) t)⟩) ∧
    (∀ q : List Char,
      columnsStrOf q =
        stripL (replaceL 's' ("elect".data) (beforeFirst 'w' ("here".data) (lowQ q)))) ∧
    (∀ q : List Char, columnsStrOf q ≠ ['*'] →
      colsOfQ q = some ((splitOnL ',' [] (columnsStrOf q)).map stripL)) ∧
    parseQuery ("select a, b where a > 5".data) =
      .ok ⟨some ["a".data, "b".data], some (" a > 5".data)⟩ := by
  refine ⟨?_, ?_, ?_, ?_, by decide⟩
  · intro q hsel haf
    have hc : containsL 'w' ("here".data) (lowQ q) = false := by
      rcases hcl : containsL 'w' ("here".data) (lowQ q)
      · rfl
      · have hs := containsL_iff_afterFirst.mp hcl
        rw [haf] at hs
        exact absurd hs (by simp)
    rw [parseQuery_eq, if_pos hsel]
    unfold filterOfQ
    rw [hc]
    simp
  · intro q t hsel haf
    have hc : containsL 'w' ("here".data) (lowQ q) = true :=
      containsL_iff_afterFirst.mpr (by rw [haf]; rfl)
    have hsplit : splitOnL 'w' ("here".data) (lowQ q) =
        beforeFirst 'w' ("here".data) (lowQ q) :: splitOnL 'w' ("here".data) t := by
      rw [splitOnL_eq_firsts, haf]
    have hsplit2 : splitOnL 'w' ("here".data) t =
        beforeFirst 'w' ("here".data) t ::
          (match afterFirst 'w' ("here".data) t with
           | none => []
           | some u => splitOnL 'w' ("here".data) u) := splitOnL_eq_firsts _ _ _
    rw [parseQuery_eq, if_pos hsel]
    unfold filterOfQ
    rw [hc]
    simp only [if_true]
    rw [hsplit, hsplit2]
    rfl
  · intro q
    unfold columnsStrOf
    rw [splitOnL_eq_firsts]
    rfl
  · intro q h
    unfold colsOfQ
    rw [if_neg h]

theorem claim_C3_witness :
    (isPrefixL ("select".data) (lowQ ("select a where b where c".data)) = true ∧
     afterFirst 'w' ("here".data) (lowQ ("select a where b where c".data)) =
       some (" b where c".data)) ∧
    parseQuery ("select a where b where c".data) =
      .ok ⟨colsOfQ ("select a where b where c".data),
           some (beforeFirst 'w' ("here".data) (" b where c".data))⟩ :=
  ⟨⟨by decide, by decide⟩,
   claim_C3_amended.2.1 ("select a where b where c".data) (" b where c".data)
     (by decide) (by decide)⟩

/-- Claim C10 counterexample: the claim says a column whose name contains an
uppercase letter can never be successfully projected, but the wildcard query
"SELECT *" successfully returns the table with its uppercase column "A"
intact (the wildcard path compares no identifiers). -/
theorem claim_C10_cex :
    isUpperC 'A' = true ∧
    execute_query keepAllRows ⟨["A".data], [[Value.intV 1]]⟩ ("SELECT *".data) =
      .ok ⟨["A".data], [[Value.intV 1]]⟩ := by decide

/-- Claim C10, amended: `execute_query` lowercases the whole statement
before extracting the column list and the filter clause, so every character
of the parsed filter string — which is exactly part 1 of the "where" split
of the lowercased statement, and is what row filtering evaluates — and of
every explicitly parsed column name is non-uppercase; hence an explicit
(non-wildcard) projection can only succeed with entirely non-uppercase
result columns, and a filter string can never mention a column name
containing an uppercase letter; wildcard projection, however, still returns
uppercase-named columns unchanged. -/
theorem claim_C10_amended :
    (∀ (q : List Char) (cols : Option (List (List Char))) (w : List Char),
      parseQuery q = .ok ⟨cols, some w⟩ →
      w = (splitOnL 'w' ("here".data) (lowQ q)).getD 1 [] ∧
      ∀ ch, ch ∈ w → isUpperC ch = false) ∧
    (∀ (q : List Char) (cs : List (List Char)) (filt : Option (List Char)),
      parseQuery q = .ok ⟨some cs, filt⟩ →
      ∀ nm, nm ∈ cs → ∀ ch, ch ∈ nm → isUpperC ch = false) ∧
    (∀ (evalFilter : Frame → List Char → Except Unit Frame) (f : Frame)
       (q : List Char) (cs : List (List Char)) (res : Frame),
      parseQuery q = .ok ⟨some cs, none⟩ →
      execute_query evalFilter f q = .ok res →
      res.cols = cs ∧ ∀ nm, nm ∈ res.cols → ∀ ch, ch ∈ nm → isUpperC ch = false) ∧
    (∀ (evalFilter : Frame → List Char → Except Unit Frame) (f : Frame)
       (q : List Char) (w : List Char),
      parseQuery q = .ok ⟨none, some w⟩ →
      execute_query evalFilter f q =
        match evalFilter f w with
        | .error _ => .error .filterError
        | .ok r => .ok r) := by
  have hfilt : ∀ (q : List Char) (cols : Option (List (List Char))) (w : List Char),
      parseQuery q = .ok ⟨cols, some w⟩ →
      w = (splitOnL 'w' ("here".data) (lowQ q)).getD 1 [] := by
    intro q cols w hp
    rw [parseQuery_eq] at hp
    by_cases hsel : isPrefixL ("select".data) (lowQ q) = true
    · rw [if_pos hsel] at hp
      injection hp with hp
      have hf : filterOfQ q = some w := congrArg SQuery.filter hp
      unfold filterOfQ at hf
      by_cases hc : containsL 'w' ("here".data) (lowQ q) = true
      · rw [if_pos hc] at hf
        injection hf with hf
        exact hf.symm
      · rw [if_neg hc] at hf
        exact absurd hf (by simp)
    · rw [if_neg hsel] at hp
      exact absurd hp (by simp)
  have hwchars : ∀ (q w : List Char),
      w = (splitOnL 'w' ("here".data) (lowQ q)).getD 1 [] →
      ∀ ch, ch ∈ w → isUpperC ch = false := by
    intro q w hw ch hch
    rw [hw] at hch
    rcases getD_mem_or (splitOnL 'w' ("here".data) (lowQ q)) 1 [] with hm | hnil
    · exact not_upper_of_mem_lowQ (mem_splitOnL hm hch)
    · rw [hnil] at hch
      simp at hch
  have hcolschars : ∀ (q : List Char) (cs : List (List Char)) (filt : Option (List Char)),
      parseQuery q = .ok ⟨some cs, filt⟩ →
      ∀ nm, nm ∈ cs → ∀ ch, ch ∈ nm → isUpperC ch = false := by
    intro q cs filt hp nm hnm ch hch
    rw [parseQuery_eq] at hp
    by_cases hsel : isPrefixL ("select".data) (lowQ q) = true
    · rw [if_pos hsel] at hp
      injection hp with hp
      have hcq : colsOfQ q = some cs := congrArg SQuery.columns hp
      unfold colsOfQ at hcq
      by_cases hstar : columnsStrOf q = ['*']
      · rw [if_pos hstar] at hcq
        exact absurd hcq (by simp)
      · rw [if_neg hstar] at hcq
        injection hcq with hcq
        rw [← hcq] at hnm
        obtain ⟨chunk, hchunk, rfl⟩ := List.mem_map.mp hnm
        exact not_upper_of_mem_lowQ
          (mem_columnsStrOf (mem_splitOnL hchunk (mem_stripL hch)))
    · rw [if_neg hsel] at hp
      exact absurd hp (by simp)
  refine ⟨?_, hcolschars, ?_, ?_⟩
  · intro q cols w hp
    have hw := hfilt q cols w hp
    exact ⟨hw, hwchars q w hw⟩
  · intro evalFilter f q cs res hp hex
    rw [execute_query_eq, hp] at hex
    simp only [execParsed, project] at hex
    by_cases hm : missingCols f cs = []
    · rw [if_pos hm] at hex
      injection hex with hex
      have hrc : res.cols = cs := by rw [← hex]
      refine ⟨hrc, ?_⟩
      intro nm hnm ch hch
      rw [hrc] at hnm
      exact hcolschars q cs none hp nm hnm ch hch
    · rw [if_neg hm] at hex
      exact absurd hex (by simp)
  · intro evalFilter f q w hp
    rw [execute_query_eq, hp]
    rfl

theorem claim_C10_witness :
    parseQuery ("select * where x > 1".data) = .ok ⟨none, some (" x > 1".data)⟩ ∧
    execute_query keepAllRows fAB ("select * where x > 1".data) = .ok fAB :=
  ⟨by decide,
   claim_C10_amended.2.2.2 keepAllRows fAB ("select * where x > 1".data)
     (" x > 1".data) (by decide)⟩

theorem claim_C6_witness :
    ("x".data ≠ "y".data ∧ "x".data ≠ "z".data ∧ "y".data ≠ "z".data) ∧
    pdConcat [⟨["x".data, "y".data], [[Value.intV 1, Value.intV 2]]⟩,
              ⟨["y".data, "z".data], [[Value.intV 3, Value.intV 4]]⟩] =
      ⟨["x".data, "y".data, "z".data],
        [[Value.intV 1, Value.intV 2, Value.nullV],
         [Value.nullV, Value.intV 3, Value.intV 4]]⟩ :=
  ⟨⟨by decide, by decide, by decide⟩,
   claim_C6 ("x".data) ("y".data) ("z".data) [[Value.intV 1, Value.intV 2]]
     [[Value.intV 3, Value.intV 4]] (by decide) (by decide) (by decide)⟩

end S3Sql
